import Mathlib

/-!
Verification of `src/bundle_adjust/ba_utils.py` against its specification.

The shallow embedding below translates the relevant functions of
`ba_utils.py` into Lean.  NumPy `NaN` entries of the observation matrix
are modelled as `none : Option ℚ`; fallible Python code (index errors,
assertion errors) is modelled with `Option`, returning `none` exactly
where the Python raises.
-/

namespace BaUtils

/-- Observation matrix `C` of `build_connectivity_graph` / `compute_sift_order`:
a numeric array of shape `(2*n_cameras, n_tracks)`; an entry is `none`
where the Python array holds `NaN`. -/
structure ObsMatrix where
  rows : List (List (Option ℚ))

/-- Row access `C[r, :]`. -/
def row (C : ObsMatrix) (r : Nat) : List (Option ℚ) := C.rows.getD r []

/-- `n_cam = int(C.shape[0]/2)` in `build_connectivity_graph`. -/
def n_cam (C : ObsMatrix) : Nat := C.rows.length / 2

/-- Number of tracks (columns); NumPy arrays are rectangular. -/
def n_tracks (C : ObsMatrix) : Nat := (C.rows.headD []).length

/-- Rectangularity of the underlying NumPy array: every row has the
same length `n_tracks C`. -/
def WF (C : ObsMatrix) : Prop := ∀ r ∈ C.rows, r.length = n_tracks C

/-- `np.sum(1*np.logical_and(1*~np.isnan(r1), 1*~np.isnan(r2)))`:
the vectorized element-wise AND of the non-NaN masks of two rows,
summed.  Elementwise combination of two equal-length arrays is the
count over the zipped rows. -/
def countJoint (r1 r2 : List (Option ℚ)) : Nat :=
  (List.zip r1 r2).countP (fun p => p.1.isSome && p.2.isSome)

/-- The quantity `n_matches` computed in step (1) of
`build_connectivity_graph`: it reads rows `C[2*im1, :]` and
`C[2*im2, :]` (the x-coordinate rows only). -/
def n_matches (C : ObsMatrix) (im1 im2 : Nat) : Nat :=
  countJoint (row C (2 * im1)) (row C (2 * im2))

/-- Entry `(i, j)` of the matrix `A` built by the double loop in step (1)
of `build_connectivity_graph`: the loop ranges over `im1 < im2 < n_cam`,
setting `A[im1,im2] = A[im2,im1] = n_matches`; `A` starts as `np.zeros`,
so the diagonal stays `0`. -/
def buildA_entry (C : ObsMatrix) (i j : Nat) : Nat :=
  if i < j then n_matches C i j else if j < i then n_matches C j i else 0

/-- The list `tmp_pairs` of step (1): all `(im1, im2)` with
`im1 < im2 < n`, in the double-loop order. -/
def tmp_pairs (n : Nat) : List (Nat × Nat) :=
  (List.range n).flatMap (fun i => (List.range' (i + 1) (n - (i + 1))).map (fun j => (i, j)))

/-- Step (2) of `build_connectivity_graph`: keep the pairs whose match
count is strictly greater than `min_matches`. -/
def pairs_to_draw (C : ObsMatrix) (min_matches : Nat) : List (Nat × Nat) :=
  (tmp_pairs (n_cam C)).filter (fun p => decide (min_matches < n_matches C p.1 p.2))

/-- The list `matches_per_pair` of step (2): the match counts of the
surviving pairs, in the same order. -/
def matches_per_pair (C : ObsMatrix) (min_matches : Nat) : List Nat :=
  (pairs_to_draw C min_matches).map (fun p => n_matches C p.1 p.2)

/-! Step (3) of `build_connectivity_graph` creates a `networkx.Graph`,
adds the surviving edges, and lists its connected components.
`nx.Graph.add_edge` inserts previously unseen endpoints in order, and
`nx.connected_components` iterates over the nodes in insertion order,
yielding the connected component of each not-yet-seen node (computed by
breadth-first search, i.e. the set of nodes reachable from it).
The embedding mirrors this: node insertion order, then for each unseen
node its reachable set, computed as an iterated neighbour closure. -/

/-- Node bookkeeping of one `G.add_edge(e[0], e[1])` call: each
endpoint is appended to the node list unless already present. -/
def addEdgeNodes (ns : List Nat) (e : Nat × Nat) : List Nat :=
  let ns1 := if e.1 ∈ ns then ns else ns ++ [e.1]
  if e.2 ∈ ns1 then ns1 else ns1 ++ [e.2]

/-- Insertion order of the graph nodes produced by the `G.add_edge`
loop over `pairs_to_draw`. -/
def nodesFromEdges (edges : List (Nat × Nat)) : List Nat :=
  edges.foldl addEdgeNodes []

/-- Neighbours of `u` in the undirected graph given by `edges`. -/
def neighborsOf (edges : List (Nat × Nat)) (u : Nat) : Finset Nat :=
  (edges.filterMap
    (fun e => if e.1 = u then some e.2 else if e.2 = u then some e.1 else none)).toFinset

/-- One round of breadth-first expansion: a set of nodes together with
all their neighbours. -/
def stepF (edges : List (Nat × Nat)) (S : Finset Nat) : Finset Nat :=
  S ∪ S.biUnion (fun u => neighborsOf edges u)

/-- Connected component of `root`: the breadth-first reachable set,
obtained by `fuel` rounds of neighbour expansion (callers pass a fuel
at least the number of graph nodes, which suffices for convergence). -/
def component (edges : List (Nat × Nat)) (fuel : Nat) (root : Nat) : Finset Nat :=
  (stepF edges)^[fuel] {root}

/-- The component list produced by `connected_component_subgraphs`:
scan the nodes in insertion order, emitting the component of every node
not seen in an earlier component. -/
def componentsAux (edges : List (Nat × Nat)) (fuel : Nat) :
    List Nat → Finset Nat → List (Finset Nat)
  | [], _ => []
  | v :: vs, seen =>
    if v ∈ seen then componentsAux edges fuel vs seen
    else component edges fuel v :: componentsAux edges fuel vs (seen ∪ component edges fuel v)

/-- `G_cc = list(connected_component_subgraphs(G))` (each subgraph
identified with its node set). -/
def componentsList (edges : List (Nat × Nat)) (fuel : Nat) : List (Finset Nat) :=
  componentsAux edges fuel (nodesFromEdges edges) ∅

/-- Return value of `build_connectivity_graph` (the `networkx` graph
itself is omitted; it is determined by `pairs_to_draw`). -/
structure GraphResult where
  n_cc : Nat
  pairs_to_draw : List (Nat × Nat)
  matches_per_pair : List Nat
  missing_cams : List Nat
deriving DecidableEq, Repr

/-- `build_connectivity_graph(C, min_matches)`.  The Python accesses
`G_cc[0]` unconditionally; when the filtered graph has no edges the
component list is empty and that access raises `IndexError`, modelled
as `none`. -/
def build_connectivity_graph (C : ObsMatrix) (min_matches : Nat) : Option GraphResult :=
  let edges := pairs_to_draw C min_matches
  match componentsList edges (n_cam C) with
  | [] => none
  | c0 :: rest =>
    some { n_cc := (c0 :: rest).length
           pairs_to_draw := edges
           matches_per_pair := matches_per_pair C min_matches
           missing_cams := (List.range (n_cam C)).filter (fun i => decide (i ∉ c0)) }

/-! Embedding of `get_predefined_pairs`.  A file is a list of its lines
(without trailing newline, as produced by `str.strip` of `readline`
results; `readline` past end-of-file returns the empty string, modelled
by `List.getD _ ""` in the counted loop and by the end of the list in
the `while` loops). -/

/-- Splitting a character list at every occurrence of `sep`, keeping
empty fragments (the behaviour of Python `str.split(sep)`). -/
def splitCharAux (sep : Char) : List Char → List Char → List (List Char)
  | [], acc => [acc.reverse]
  | c :: cs, acc =>
    if c = sep then acc.reverse :: splitCharAux sep cs []
    else splitCharAux sep cs (c :: acc)

/-- Python `s.split(sep)` for a one-character separator: fragments
between separators, empty fragments kept (`''.split(' ') == ['']`). -/
def splitChar (sep : Char) (s : String) : List String :=
  (splitCharAux sep s.data []).map (fun l => String.mk l)

/-- Python `str.isdigit` restricted to ASCII content. -/
def isdigitStr (x : String) : Bool := !x.data.isEmpty && x.data.all Char.isDigit

/-- Numeric value of a string of decimal digits (Python `int(s)` for an
`isdigit` string). -/
def natOfDigits (x : String) : Nat :=
  x.data.foldl (fun acc c => acc * 10 + (c.toNat - '0'.toNat)) 0

/-- `[int(s) for s in line.split() if s.isdigit()]`: `str.split()` with
no argument splits on whitespace runs and drops empty fragments (the
model covers space-separated content). -/
def digitTokens (line : String) : List Nat :=
  ((splitChar ' ' line).filter (fun x => isdigitStr x)).map (fun x => natOfDigits x)

/-- `os.path.basename`: the part after the last slash. -/
def basename (x : String) : String := (splitChar '/' x).getLastD x

/-- The `for i in range(50)` loop of the `oracle`/`sift` branch:
each iteration reads a line, extracts its integer tokens `a`, and
appends `(a[0]-1, a[1]-1)`; fewer than two integer tokens raise
`IndexError` (`none`). -/
def goOracle (fileLines : List String) : Nat → Nat → List (Int × Int) →
    Option (List (Int × Int))
  | _, 0, pairs => some pairs
  | i, k + 1, pairs =>
    match digitTokens (fileLines.getD i "") with
    | a0 :: a1 :: _ => goOracle fileLines (i + 1) k (pairs ++ [((a0 : Int) - 1, (a1 : Int) - 1)])
    | _ => none

/-- The `while len(pairs) < 50` loops of the heuristics branch:
`f` renders a token into a filename (`basename`, with `'.tif'` appended
first outside the `IARPA` site); a line whose two filenames are both
known appends their indices, other well-formed lines are skipped;
a line with fewer than two `' '`-separated tokens (in particular the
empty string returned by `readline` at end of file) raises `IndexError`
(`none`). -/
def goHeur (f : String → String) (myimages_fn : List String) :
    List String → List (Int × Int) → Option (List (Int × Int))
  | lines, pairs =>
    if 50 ≤ pairs.length then some pairs
    else
      match lines with
      | [] => none
      | line :: rest =>
        match splitChar ' ' line with
        | tok0 :: tok1 :: _ =>
          let im1_fn := f tok0
          let im2_fn := f tok1
          if im1_fn ∈ myimages_fn ∧ im2_fn ∈ myimages_fn then
            goHeur f myimages_fn rest
              (pairs ++ [((myimages_fn.indexOf im1_fn : Int), (myimages_fn.indexOf im2_fn : Int))])
          else goHeur f myimages_fn rest pairs
        | _ => none

/-- `get_predefined_pairs(fname, site, order, myimages)`. -/
def get_predefined_pairs (fileLines : List String) (site order : String)
    (myimages : List String) : Option (List (Int × Int)) :=
  if order = "oracle" ∨ order = "sift" then
    goOracle fileLines 0 50 []
  else
    let myimages_fn := myimages.map basename
    if site = "IARPA" then
      goHeur (fun x => basename x) myimages_fn fileLines []
    else
      goHeur (fun x => basename (x ++ ".tif")) myimages_fn fileLines []

/-! Embedding of `read_point_cloud_ply`.  Each line of the file is
modelled by the list of numbers the regular expression
`[-+]?\d*\.\d+|\d+` extracts from it (in order). -/

/-- `read_point_cloud_ply(filename)`: `n_pts = len(content) - 7`, then
rows `content[7], content[8], ...` are parsed as points, taking the
first three extracted numbers of each; a row with fewer than three
numbers raises `IndexError`, and a file with fewer than 7 lines makes
`np.zeros((n_pts, 3))` raise on the negative dimension (`none`). -/
def read_point_cloud_ply (content : List (List ℚ)) : Option (List (ℚ × ℚ × ℚ)) :=
  if content.length < 7 then none
  else
    (content.drop 7).mapM
      (fun coords =>
        match coords with
        | c0 :: c1 :: c2 :: _ => some (c0, c1, c2)
        | _ => none)

/-! Embedding of `save_geotiff`. -/

/-- The rasterio profile written by `save_geotiff`; the affine transform
is identified with the `from_origin` arguments `(west, north, xsize,
ysize)`. -/
structure GeoTiffProfile where
  driver : String
  count : Nat
  width : Nat
  height : Nat
  dtype : String
  crs : String
  transform : ℚ × ℚ × ℚ × ℚ
deriving DecidableEq, Repr

/-- Profile built by `save_geotiff(filename, input_im, epsg_code, x, y, r)`
for an image of shape `(h, w)`.  Note the hard-coded `'epsg:32614'`. -/
def save_geotiff_profile (h w : Nat) (epsg_code : Nat) (x y r : ℚ) : GeoTiffProfile :=
  { driver := "GTiff"
    count := 1
    width := w
    height := h
    dtype := "float64"
    crs := "epsg:32614"
    transform := (x - r / 2, y + r / 2, r, r) }

/-! Embedding of `run_plyflatten`. -/

/-- UTM bounding box `utm_bbx`. -/
structure UtmBbx where
  xmin : ℚ
  xmax : ℚ
  ymin : ℚ
  ymax : ℚ
deriving DecidableEq, Repr

/-- The `roi = (xoff, yoff, xsize, ysize)` computed at the top of
`run_plyflatten` (`np.floor`/`np.ceil` are exact on rationals, and the
Python `int(...)` conversions act on integer-valued floats). -/
def run_plyflatten_roi (utm_bbx : UtmBbx) (resolution : ℚ) : ℚ × ℚ × Int × Int :=
  let xoff := ⌊utm_bbx.xmin / resolution⌋ * resolution
  let xsize := ⌊(utm_bbx.xmax - utm_bbx.xmin) / resolution⌋ + 1
  let yoff := ⌈utm_bbx.ymax / resolution⌉ * resolution
  let ysize := ⌊(utm_bbx.ymax - utm_bbx.ymin) / resolution⌋ + 1
  (xoff, yoff, xsize, ysize)

/-- The layer-selection logic at the end of `run_plyflatten`, acting on
the layer dimension of the aggregated `raster` (a pixel grid per
element of the list).  Output: the primary layer written to
`output_file` (`raster[:, :, 0]`), the layer written to `cnt/`
(`raster[:, :, -1]`, only when the layer count is odd and `cnt` is set)
and the layer written to `std/` (`raster[:, :, n // 2]` after the odd
trailing layer is dropped).  `raster[:, :, 0]` on an empty layer list
and `raster[:, :, n // 2]` with `n = 0` raise `IndexError`; the
`assert n % 2 == 0` raises `AssertionError` (`none`). -/
def run_plyflatten_layers (raster : List ℚ) (stdFlag cnt : Bool) :
    Option (ℚ × Option ℚ × Option ℚ) :=
  match raster.head? with
  | none => none
  | some dsm =>
    if stdFlag then
      let cntOut : Option ℚ :=
        if raster.length % 2 = 1 ∧ cnt then raster.getLast? else none
      let raster2 := if raster.length % 2 = 1 then raster.dropLast else raster
      let m := raster2.length
      if m % 2 = 0 then
        match raster2.get? (m / 2) with
        | some stdOut => some (dsm, cntOut, some stdOut)
        | none => none
      else none
    else some (dsm, none, none)

/-! Definitions used to state the claims: the adjacency relation of the
filtered graph, reachability, and two definitions taken verbatim from
the spec's words for refinement comparison against the code. -/

/-- `u` and `v` are joined by one of the (ordered) edge pairs. -/
def Adj (edges : List (Nat × Nat)) (u v : Nat) : Prop :=
  (u, v) ∈ edges ∨ (v, u) ∈ edges

/-- Graph reachability over the filtered edges (the mathematical notion
of being in the same connected component). -/
def Reach (edges : List (Nat × Nat)) (u v : Nat) : Prop :=
  Relation.ReflTransGen (Adj edges) u v

/-- Spec-side definition, following the claim's words: the number of
track columns in which both camera `i`'s row pair (rows `2i`, `2i+1`)
and camera `j`'s row pair (rows `2j`, `2j+1`) are non-`NaN`. -/
def pairObservedCountSpec (C : ObsMatrix) (i j : Nat) : Nat :=
  ((List.range (n_tracks C)).filter
    (fun t => ((row C (2 * i)).getD t none).isSome
      && ((row C (2 * i + 1)).getD t none).isSome
      && ((row C (2 * j)).getD t none).isSome
      && ((row C (2 * j + 1)).getD t none).isSome)).length

/-- Spec-side definition, following the claim's words: the largest
connected component (by node count) among the components of the
filtered graph. -/
def largestComponentSpec (comps : List (Finset Nat)) : Finset Nat :=
  comps.foldl (fun best c => if best.card < c.card then c else best) ∅

/-! Concrete observation matrices used in witnesses and counterexamples. -/

/-- Two cameras, one track: the x rows (0 and 2) are non-`NaN` while the
y rows (1 and 3) are `NaN`, and a second track with the roles swapped. -/
def Cmix : ObsMatrix :=
  ⟨[[some 1, none], [none, some 1], [some 1, none], [none, some 1]]⟩

/-- Two cameras, four tracks; tracks 0, 2, 3 observed by both cameras,
track 1 only by camera 0 (the end-to-end example of the spec). -/
def Cboth : ObsMatrix :=
  ⟨[[some 1, some 1, some 1, some 1], [some 1, some 1, some 1, some 1],
    [some 1, none, some 1, some 1], [some 1, none, some 1, some 1]]⟩

/-- Two cameras, one track, nothing observed: no pair has any match. -/
def Cnone : ObsMatrix := ⟨[[none], [none], [none], [none]]⟩

/-- Five cameras, three tracks: joint observations give the surviving
edges (0,1), (2,3), (3,4) at threshold 0, so the filtered graph has a
2-camera component containing camera 0 and a 3-camera component. -/
def Cfive : ObsMatrix :=
  ⟨[[some 1, none, none], [some 1, none, none],
    [some 1, none, none], [some 1, none, none],
    [none, some 1, none], [none, some 1, none],
    [none, some 1, some 1], [none, some 1, some 1],
    [none, none, some 1], [none, none, some 1]]⟩

/-! Helper lemmas on `tmp_pairs` and `countJoint`. -/

/-- Membership in the double-loop pair list. -/
lemma mem_tmp_pairs {n i j : Nat} : (i, j) ∈ tmp_pairs n ↔ i < j ∧ j < n := by
  simp only [tmp_pairs, List.mem_flatMap, List.mem_map, List.mem_range, List.mem_range'_1]
  constructor
  · rintro ⟨a, ha, b, hb, heq⟩
    cases heq
    omega
  · rintro ⟨hij, hjn⟩
    exact ⟨i, by omega, j, by omega, rfl⟩

/-- On rows of equal length, the zipped joint non-`NaN` count is the
number of column indices at which both rows hold a value. -/
lemma countJoint_eq_filter :
    ∀ (r1 r2 : List (Option ℚ)), r1.length = r2.length →
      countJoint r1 r2 =
        ((List.range r1.length).filter
          (fun t => ((r1.getD t none).isSome && (r2.getD t none).isSome))).length
  | [], [], _ => rfl
  | [], _ :: _, h => by simp at h
  | _ :: _, [], h => by simp at h
  | a :: r1, b :: r2, h => by
    have ih := countJoint_eq_filter r1 r2 (by simpa using h)
    simp only [countJoint, List.zip_cons_cons, List.countP_cons] at ih ⊢
    rw [List.length_cons, List.range_succ_eq_map, List.filter_cons, List.filter_map]
    simp only [List.getD_cons_zero, List.getD_cons_succ, Function.comp_def, Nat.succ_eq_add_one]
    by_cases hab : (a.isSome && b.isSome) = true
    · simp [hab, ih, List.length_map]
    · simp [hab, ih, List.length_map]

/-- Joint count is symmetric on rows of equal length. -/
lemma countJoint_comm (r1 r2 : List (Option ℚ)) (h : r1.length = r2.length) :
    countJoint r1 r2 = countJoint r2 r1 := by
  rw [countJoint_eq_filter r1 r2 h, countJoint_eq_filter r2 r1 h.symm, ← h]
  congr 1
  apply List.filter_congr
  intro t _
  rw [Bool.and_comm]

/-- A row obtained by in-range indexing has the common row length. -/
lemma row_length {C : ObsMatrix} (hWF : WF C) {r : Nat} (hr : r < C.rows.length) :
    (row C r).length = n_tracks C := by
  have hmem : C.rows.getD r [] ∈ C.rows := by
    rw [List.getD_eq_getElem C.rows [] hr]
    exact List.getElem_mem hr
  exact hWF _ hmem

/-! Claim C2. -/

/-- Claim C2, counterexample: on a matrix whose x rows and y rows
disagree about `NaN`-ness, the adjacency count computed by
`build_connectivity_graph` (which reads only rows `2i` and `2j`) is `1`,
while the number of tracks at which both full row pairs are non-`NaN`
is `0`: the claimed equality fails at `C = Cmix`, `i = 0`, `j = 1`. -/
theorem C2_counterexample :
    buildA_entry Cmix 0 1 = 1 ∧ pairObservedCountSpec Cmix 0 1 = 0 ∧
      buildA_entry Cmix 0 1 ≠ pairObservedCountSpec Cmix 0 1 := by decide

/-- Claim C2 (amended): for every rectangular observation matrix and
distinct in-range cameras `i`, `j`, the entry `A[i,j]` built by
`build_connectivity_graph` equals `A[j,i]` and equals the number of
track columns in which row `2i` and row `2j` — the x-coordinate rows
only — are both non-`NaN`; the odd rows `2i+1`, `2j+1` are never
inspected. -/
theorem C2_theorem (C : ObsMatrix) (i j : Nat) (hWF : WF C) (hij : i ≠ j)
    (hi : 2 * i < C.rows.length) (hj : 2 * j < C.rows.length) :
    buildA_entry C i j = buildA_entry C j i ∧
    buildA_entry C i j =
      ((List.range (n_tracks C)).filter
        (fun t => (((row C (2 * i)).getD t none).isSome
          && ((row C (2 * j)).getD t none).isSome))).length := by
  have hleni := row_length hWF hi
  have hlenj := row_length hWF hj
  constructor
  · rcases Nat.lt_trichotomy i j with h | h | h
    · simp [buildA_entry, h, Nat.lt_asymm h]
    · exact absurd h hij
    · simp [buildA_entry, h, Nat.lt_asymm h]
  · rcases Nat.lt_trichotomy i j with h | h | h
    · simp only [buildA_entry, if_pos h]
      rw [n_matches, countJoint_eq_filter _ _ (by rw [hleni, hlenj]), hleni]
    · exact absurd h hij
    · simp only [buildA_entry, if_neg (Nat.lt_asymm h), if_pos h]
      rw [n_matches, countJoint_comm _ _ (by rw [hleni, hlenj]),
        countJoint_eq_filter _ _ (by rw [hleni, hlenj]), hleni]

/-- Claim C2, witness: the amended statement evaluated on the concrete
two-camera matrix `Cboth`. -/
theorem C2_witness :
    buildA_entry Cboth 0 1 = buildA_entry Cboth 1 0 ∧
    buildA_entry Cboth 0 1 =
      ((List.range (n_tracks Cboth)).filter
        (fun t => (((row Cboth (2 * 0)).getD t none).isSome
          && ((row Cboth (2 * 1)).getD t none).isSome))).length :=
  C2_theorem Cboth 0 1
    (by show ∀ r ∈ Cboth.rows, r.length = n_tracks Cboth; decide)
    (by decide) (by decide) (by decide)

/-! Claim C6. -/

/-- Claim C6, counterexample: on the spec's own end-to-end example
(`A[0,1] = 3`), `min_matches = 3` removes the only edge, and
`build_connectivity_graph` then raises an index error on the empty
component list (`none`) instead of yielding two singleton components. -/
theorem C6_counterexample :
    n_matches Cboth 0 1 = 3 ∧ pairs_to_draw Cboth 3 = [] ∧
      build_connectivity_graph Cboth 3 = none := by decide

/-- Claim C6 (amended): edge filtering keeps a camera pair exactly when
its match count is strictly greater than `min_matches` (a count equal
to the threshold is dropped); concretely, with `A[0,1] = 3` the edge is
kept at `min_matches = 2` and dropped at `min_matches = 3` — but with
its last edge dropped the function errors out instead of reporting two
singleton components. -/
theorem C6_theorem (C : ObsMatrix) (min_matches i j : Nat) :
    ((i, j) ∈ pairs_to_draw C min_matches ↔
      i < j ∧ j < n_cam C ∧ min_matches < n_matches C i j) ∧
    (0, 1) ∈ pairs_to_draw Cboth 2 ∧ (0, 1) ∉ pairs_to_draw Cboth 3 := by
  refine ⟨?_, by decide, by decide⟩
  rw [pairs_to_draw, List.mem_filter, mem_tmp_pairs]
  simp [and_assoc]

/-! Claim C4. -/

/-- Claim C4, counterexample: a matrix with no joint observations has
zero edges above any threshold, and `build_connectivity_graph` fails
(`G_cc[0]` raises `IndexError`, modelled as `none`) instead of
returning normally with all cameras reported missing. -/
theorem C4_counterexample :
    pairs_to_draw Cnone 0 = [] ∧ build_connectivity_graph Cnone 0 = none := by decide

/-- Claim C4 (amended): whenever no camera pair survives the threshold
(the filtered edge list is empty), `build_connectivity_graph` fails
with an index error on the empty component list; it does not return. -/
theorem C4_theorem (C : ObsMatrix) (min_matches : Nat)
    (h : pairs_to_draw C min_matches = []) :
    build_connectivity_graph C min_matches = none := by
  simp [build_connectivity_graph, h, componentsList, nodesFromEdges, componentsAux]

/-- Claim C4, witness: the amended statement evaluated at the concrete
all-`NaN` matrix and threshold 5. -/
theorem C4_witness : build_connectivity_graph Cnone 5 = none :=
  C4_theorem Cnone 5 (by decide)

/-! Claim C7. -/

/-- Claim C7: the raster grid computed by `run_plyflatten` satisfies
`xoff = floor(xmin/res)*res`, `yoff = ceil(ymax/res)*res`,
`width = floor((xmax-xmin)/res) + 1`, `height = floor((ymax-ymin)/res) + 1`;
in particular the bounding box `(0, 9.5, 0, 4.5)` at resolution 1 gives
`xoff = 0`, `yoff = 5`, `width = 10`, `height = 5`. -/
theorem C7_theorem (utm_bbx : UtmBbx) (resolution : ℚ) (hres : 0 < resolution) :
    run_plyflatten_roi utm_bbx resolution =
      (⌊utm_bbx.xmin / resolution⌋ * resolution,
        ⌈utm_bbx.ymax / resolution⌉ * resolution,
        ⌊(utm_bbx.xmax - utm_bbx.xmin) / resolution⌋ + 1,
        ⌊(utm_bbx.ymax - utm_bbx.ymin) / resolution⌋ + 1) ∧
    run_plyflatten_roi ⟨0, 19 / 2, 0, 9 / 2⟩ 1 = (0, 5, 10, 5) := by
  refine ⟨rfl, ?_⟩
  have h1 : ⌊((0 : ℚ) / 1)⌋ = 0 := by norm_num
  have h2 : ⌈(((9 : ℚ) / 2) / 1)⌉ = 5 := by
    rw [Int.ceil_eq_iff]
    norm_num
  have h3 : ⌊(((19 : ℚ) / 2) - 0) / 1⌋ = 9 := by norm_num
  have h4 : ⌊(((9 : ℚ) / 2) - 0) / 1⌋ = 4 := by norm_num
  simp only [run_plyflatten_roi, h1, h2, h3, h4]
  norm_num

/-- Claim C7, witness: the statement evaluated at the concrete bounding
box `(0, 9.5, 0, 4.5)` with resolution 1. -/
theorem C7_witness :
    run_plyflatten_roi ⟨0, 19 / 2, 0, 9 / 2⟩ 1 =
      ((⌊(0 : ℚ) / 1⌋ : ℚ) * 1, (⌈(((9 : ℚ) / 2) / 1)⌉ : ℚ) * 1,
        ⌊(((19 : ℚ) / 2) - 0) / 1⌋ + 1, ⌊(((9 : ℚ) / 2) - 0) / 1⌋ + 1) ∧
    run_plyflatten_roi ⟨0, 19 / 2, 0, 9 / 2⟩ 1 = (0, 5, 10, 5) :=
  C7_theorem ⟨0, 19 / 2, 0, 9 / 2⟩ 1 (by norm_num)

/-! Claim C8. -/

/-- Claim C8: when both `std` and `cnt` are requested and the backing
aggregation appended a count layer (odd layer count), `run_plyflatten`
takes the count layer from the single trailing position and the std
layer of the primary value from index `n/2` of the remaining `n`
layers. -/
theorem C8_theorem (raster : List ℚ) (hodd : raster.length % 2 = 1)
    (hlen : 3 ≤ raster.length) :
    run_plyflatten_layers raster true true =
      some (raster.headD 0, raster.getLast?,
        raster.dropLast.get? (raster.dropLast.length / 2)) := by
  have hne : raster ≠ [] := by
    intro hnil
    rw [hnil] at hlen
    simp at hlen
  have hm : raster.dropLast.length = raster.length - 1 := List.length_dropLast raster
  have hidx : raster.dropLast.length / 2 < raster.dropLast.length := by omega
  obtain ⟨s, hs⟩ : ∃ s, raster.dropLast.get? (raster.dropLast.length / 2) = some s :=
    ⟨_, List.get?_eq_get hidx⟩
  have hm2 : raster.dropLast.length % 2 = 0 := by omega
  obtain ⟨a, rest, rfl⟩ : ∃ a rest, raster = a :: rest := by
    cases raster with
    | nil => exact absurd rfl hne
    | cons a rest => exact ⟨a, rest, rfl⟩
  simp only [run_plyflatten_layers, List.head?_cons, List.headD_cons, hodd, and_true, if_true]
  rw [if_pos hm2, hs]

/-- Claim C8, witness: the statement evaluated on a concrete raster
with layers `[value, std, count]`. -/
theorem C8_witness :
    run_plyflatten_layers [10, 20, 30] true true =
      some (([10, 20, 30] : List ℚ).headD 0, ([10, 20, 30] : List ℚ).getLast?,
        ([10, 20, 30] : List ℚ).dropLast.get?
          (([10, 20, 30] : List ℚ).dropLast.length / 2)) :=
  C8_theorem [10, 20, 30] (by decide) (by decide)

/-! Claim C9. -/

/-- Claim C9, counterexample: a file whose header has 8 lines (the
extra one carrying three numbers, e.g. a malformed comment) is not
rejected: `read_point_cloud_ply` silently parses the 8th header line as
a data row and returns two points for a one-point file. -/
theorem C9_counterexample :
    read_point_cloud_ply [[], [1], [541636], [], [], [], [], [1, 2, 3], [4, 5, 6]] =
      some [(1, 2, 3), (4, 5, 6)] := by decide

/-- Claim C9 (amended): `read_point_cloud_ply` performs no header
validation at all — its result depends only on the lines after the
first 7, so a header of the wrong line count is never detected before
parsing: extra header lines are silently parsed as data rows (or fail
mid-parse), never rejected with a format error. -/
theorem C9_theorem (h1 h2 rest : List (List ℚ))
    (e1 : h1.length = 7) (e2 : h2.length = 7) :
    read_point_cloud_ply (h1 ++ rest) = read_point_cloud_ply (h2 ++ rest) := by
  have d1 : (h1 ++ rest).drop 7 = rest := by
    rw [← e1, List.drop_left]
  have d2 : (h2 ++ rest).drop 7 = rest := by
    rw [← e2, List.drop_left]
  have l1 : (h1 ++ rest).length = 7 + rest.length := by rw [List.length_append, e1]
  have l2 : (h2 ++ rest).length = 7 + rest.length := by rw [List.length_append, e2]
  simp only [read_point_cloud_ply, d1, d2]
  rw [if_neg (by rw [l1]; omega), if_neg (by rw [l2]; omega)]

/-- Claim C9, witness: two concrete 7-line headers with different
content followed by the same data row produce the same result. -/
theorem C9_witness :
    read_point_cloud_ply ([[], [], [], [], [], [], []] ++ [[1, 2, 3]]) =
      read_point_cloud_ply ([[], [1], [9], [], [], [], []] ++ [[1, 2, 3]]) :=
  C9_theorem _ _ _ (by decide) (by decide)

/-! Claim C10. -/

/-- Claim C10: the profile written by `save_geotiff` is independent of
the `epsg_code` argument, and the recorded coordinate reference system
is the constant string `epsg:32614`. -/
theorem C10_theorem (h w : Nat) (e1 e2 : Nat) (x y r : ℚ) :
    save_geotiff_profile h w e1 x y r = save_geotiff_profile h w e2 x y r ∧
    (save_geotiff_profile h w e1 x y r).crs = "epsg:32614" :=
  ⟨rfl, rfl⟩

/-! Claim C3. -/

/-- The counted loop of the `oracle`/`sift` branch appends exactly one
pair per iteration, so a normal return extends the accumulator by the
loop count. -/
lemma goOracle_length (fileLines : List String) :
    ∀ (k i : Nat) (pairs ps : List (Int × Int)),
      goOracle fileLines i k pairs = some ps → ps.length = pairs.length + k
  | 0, i, pairs, ps, h => by
    simp only [goOracle, Option.some.injEq] at h
    rw [← h]
    omega
  | k + 1, i, pairs, ps, h => by
    simp only [goOracle] at h
    cases htok : digitTokens (fileLines.getD i "") with
    | nil => rw [htok] at h; exact absurd h (by simp)
    | cons a0 rest =>
      cases rest with
      | nil => rw [htok] at h; exact absurd h (by simp)
      | cons a1 rest2 =>
        rw [htok] at h
        have hrec := goOracle_length fileLines k (i + 1)
          (pairs ++ [((a0 : Int) - 1, (a1 : Int) - 1)]) ps h
        rw [hrec, List.length_append]
        simp
        omega

/-- The `while len(pairs) < 50` loops return only lists of exactly 50
pairs: they stop as soon as the accumulator reaches 50 and error out at
end of file otherwise. -/
lemma goHeur_length (f : String → String) (myimages_fn : List String) :
    ∀ (lines : List String) (pairs ps : List (Int × Int)),
      pairs.length ≤ 50 → goHeur f myimages_fn lines pairs = some ps → ps.length = 50
  | [], pairs, ps, hle, h => by
    simp only [goHeur] at h
    split at h
    · rename_i h50
      rw [Option.some.injEq] at h
      rw [← h]
      omega
    · exact absurd h (by simp)
  | line :: rest, pairs, ps, hle, h => by
    simp only [goHeur] at h
    split at h
    · rename_i h50
      rw [Option.some.injEq] at h
      rw [← h]
      omega
    · rename_i h50
      split at h
      · split at h
        · exact goHeur_length f myimages_fn rest _ ps
            (by rw [List.length_append]; simp; omega) h
        · exact goHeur_length f myimages_fn rest pairs ps (by omega) h
      · exact absurd h (by simp)

/-- Claim C3, counterexample: a pair file with fewer valid lines than
the limit of 50 makes `get_predefined_pairs` raise an index error
(`none`), not return the partial list — both for the index-form
(`oracle`) branch (3 valid lines) and for the filename-form branch
(2 valid lines). -/
theorem C3_counterexample :
    get_predefined_pairs ["1 2", "1 3", "2 3"] "IARPA" "oracle" [] = none ∧
    get_predefined_pairs ["a.tif b.tif", "a.tif c.tif"] "IARPA" "heur"
      ["a.tif", "b.tif", "c.tif"] = none := by decide

/-- Claim C3 (amended): `get_predefined_pairs` never returns a partial
list — in every mode, a normal return carries exactly 50 pairs, and a
file that runs out of valid lines before 50 pairs are collected raises
an index error instead of returning. -/
theorem C3_theorem (fileLines : List String) (site order : String)
    (myimages : List String) (ps : List (Int × Int))
    (h : get_predefined_pairs fileLines site order myimages = some ps) :
    ps.length = 50 := by
  rw [get_predefined_pairs] at h
  by_cases hord : order = "oracle" ∨ order = "sift"
  · rw [if_pos hord] at h
    have := goOracle_length fileLines 50 0 [] ps h
    simpa using this
  · rw [if_neg hord] at h
    by_cases hsite : site = "IARPA"
    · rw [if_pos hsite] at h
      exact goHeur_length _ _ fileLines [] ps (by simp) h
    · rw [if_neg hsite] at h
      exact goHeur_length _ _ fileLines [] ps (by simp) h

/-- Claim C3, witness: the amended statement evaluated on a concrete
50-line index-form file, which returns exactly 50 pairs. -/
theorem C3_witness : (List.replicate 50 ((0 : Int), (1 : Int))).length = 50 :=
  C3_theorem (List.replicate 50 "1 2") "x" "sift" []
    (List.replicate 50 ((0 : Int), (1 : Int))) (by decide)

/-! Claim C5: correctness of the breadth-first component computation.
The closure iterate used by `component` is shown to compute exactly the
set of nodes reachable from the root through the filtered edges. -/

/-- Neighbour membership agrees with the symmetric edge relation. -/
lemma mem_neighborsOf {edges : List (Nat × Nat)} {u v : Nat} :
    v ∈ neighborsOf edges u ↔ Adj edges u v := by
  simp only [neighborsOf, List.mem_toFinset, List.mem_filterMap, Adj]
  constructor
  · rintro ⟨e, he, hsome⟩
    by_cases h1 : e.1 = u
    · rw [if_pos h1, Option.some.injEq] at hsome
      left
      have he2 : e = (u, v) := by
        obtain ⟨x, y⟩ := e
        simp only at h1 hsome
        rw [h1, hsome]
      rw [← he2]
      exact he
    · rw [if_neg h1] at hsome
      by_cases h2 : e.2 = u
      · rw [if_pos h2, Option.some.injEq] at hsome
        right
        have he2 : e = (v, u) := by
          obtain ⟨x, y⟩ := e
          simp only at h2 hsome
          rw [h2, hsome]
        rw [← he2]
        exact he
      · rw [if_neg h2] at hsome
        exact absurd hsome (by simp)
  · rintro (he | he)
    · exact ⟨(u, v), he, by simp⟩
    · refine ⟨(v, u), he, ?_⟩
      by_cases hvu : v = u
      · simp [hvu]
      · simp [hvu]

/-- Expansion only adds nodes. -/
lemma stepF_supset (edges : List (Nat × Nat)) (S : Finset Nat) : S ⊆ stepF edges S :=
  Finset.subset_union_left

/-- Each expansion round contains the previous one. -/
lemma iterate_stepF_subset_succ (edges : List (Nat × Nat)) (S : Finset Nat) (k : Nat) :
    (stepF edges)^[k] S ⊆ (stepF edges)^[k + 1] S := by
  rw [Function.iterate_succ_apply']
  exact stepF_supset edges _

/-- The expansion rounds form an increasing chain. -/
lemma iterate_stepF_mono (edges : List (Nat × Nat)) (S : Finset Nat) {k m : Nat}
    (h : k ≤ m) : (stepF edges)^[k] S ⊆ (stepF edges)^[m] S := by
  induction m, h using Nat.le_induction with
  | base => exact subset_rfl
  | succ m hm ih => exact ih.trans (iterate_stepF_subset_succ edges S m)

/-- With all edge endpoints below `n`, neighbours stay below `n`. -/
lemma neighborsOf_subset_range {edges : List (Nat × Nat)} {n : Nat}
    (hE : ∀ e ∈ edges, e.1 < n ∧ e.2 < n) (u : Nat) :
    neighborsOf edges u ⊆ Finset.range n := by
  intro v hv
  rw [Finset.mem_range]
  rcases mem_neighborsOf.mp hv with h | h
  · exact (hE _ h).2
  · exact (hE _ h).1

/-- Expansion keeps sets inside the node range. -/
lemma stepF_subset_range {edges : List (Nat × Nat)} {n : Nat}
    (hE : ∀ e ∈ edges, e.1 < n ∧ e.2 < n) {S : Finset Nat}
    (hS : S ⊆ Finset.range n) : stepF edges S ⊆ Finset.range n := by
  rw [stepF]
  refine Finset.union_subset hS (Finset.biUnion_subset.mpr ?_)
  intro u _
  exact neighborsOf_subset_range hE u

/-- Iterated expansion keeps sets inside the node range. -/
lemma iterate_stepF_subset_range {edges : List (Nat × Nat)} {n : Nat}
    (hE : ∀ e ∈ edges, e.1 < n ∧ e.2 < n) {S : Finset Nat}
    (hS : S ⊆ Finset.range n) : ∀ k, (stepF edges)^[k] S ⊆ Finset.range n
  | 0 => hS
  | k + 1 => by
    rw [Function.iterate_succ_apply']
    exact stepF_subset_range hE (iterate_stepF_subset_range hE hS k)

/-- As long as no round is a fixed point, the set grows by at least one
node per round. -/
lemma card_le_iterate_stepF {edges : List (Nat × Nat)} {S : Finset Nat} :
    ∀ k, (∀ j < k, (stepF edges)^[j + 1] S ≠ (stepF edges)^[j] S) →
      S.card + k ≤ ((stepF edges)^[k] S).card
  | 0, _ => by simp
  | k + 1, hne => by
    have h1 := card_le_iterate_stepF k (fun j hj => hne j (Nat.lt_succ_of_lt hj))
    have hss : (stepF edges)^[k] S ⊂ (stepF edges)^[k + 1] S :=
      Finset.ssubset_iff_subset_ne.mpr
        ⟨iterate_stepF_subset_succ edges S k, fun hEq => hne k (Nat.lt_succ_self k) hEq.symm⟩
    have h2 := Finset.card_lt_card hss
    omega

/-- After `n` rounds the expansion from a single root below `n` has
converged: one more round adds nothing. -/
lemma stepF_iterate_fixed {edges : List (Nat × Nat)} {n : Nat}
    (hE : ∀ e ∈ edges, e.1 < n ∧ e.2 < n) {root : Nat} (hroot : root < n) :
    stepF edges ((stepF edges)^[n] {root}) = (stepF edges)^[n] {root} := by
  have hS : ({root} : Finset Nat) ⊆ Finset.range n := by
    rw [Finset.singleton_subset_iff, Finset.mem_range]
    exact hroot
  have hex : ∃ j, j ≤ n ∧ (stepF edges)^[j + 1] {root} = (stepF edges)^[j] {root} := by
    by_contra hcon
    push_neg at hcon
    have hne : ∀ j < n + 1, (stepF edges)^[j + 1] ({root} : Finset Nat) ≠
        (stepF edges)^[j] {root} := fun j hj => hcon j (Nat.lt_succ_iff.mp hj)
    have h1 := card_le_iterate_stepF (n + 1) hne
    have h2 : ((stepF edges)^[n + 1] ({root} : Finset Nat)).card ≤ n := by
      have h3 := Finset.card_le_card (iterate_stepF_subset_range hE hS (n + 1))
      simpa using h3
    have h4 : ({root} : Finset Nat).card = 1 := Finset.card_singleton root
    omega
  obtain ⟨j, hj, hfix⟩ := hex
  have hall : ∀ m, j ≤ m →
      (stepF edges)^[m] ({root} : Finset Nat) = (stepF edges)^[j] {root} := by
    intro m hm
    induction m, hm using Nat.le_induction with
    | base => rfl
    | succ m hm ih =>
      rw [Function.iterate_succ_apply', ih,
        ← Function.iterate_succ_apply' (stepF edges) j {root}]
      exact hfix
  rw [hall n hj, ← Function.iterate_succ_apply' (stepF edges) j {root}]
  exact hfix

/-- Soundness: every node collected by the expansion is reachable. -/
lemma reach_of_mem_iterate {edges : List (Nat × Nat)} {root : Nat} :
    ∀ (k : Nat) (v : Nat), v ∈ (stepF edges)^[k] ({root} : Finset Nat) →
      Reach edges root v
  | 0, v, hv => by
    rw [Function.iterate_zero_apply, Finset.mem_singleton] at hv
    rw [hv]
    exact Relation.ReflTransGen.refl
  | k + 1, v, hv => by
    rw [Function.iterate_succ_apply', stepF, Finset.mem_union] at hv
    rcases hv with hv | hv
    · exact reach_of_mem_iterate k v hv
    · rw [Finset.mem_biUnion] at hv
      obtain ⟨u, hu, hvu⟩ := hv
      exact Relation.ReflTransGen.tail (reach_of_mem_iterate k u hu)
        (mem_neighborsOf.mp hvu)

/-- Completeness: every reachable node is collected by the converged
expansion. -/
lemma mem_component_of_reach {edges : List (Nat × Nat)} {n : Nat}
    (hE : ∀ e ∈ edges, e.1 < n ∧ e.2 < n) {root v : Nat} (hroot : root < n)
    (h : Reach edges root v) : v ∈ component edges n root := by
  rw [Reach] at h
  induction h with
  | refl =>
    have h0 : root ∈ (stepF edges)^[0] ({root} : Finset Nat) := by simp
    exact iterate_stepF_mono edges {root} (Nat.zero_le n) h0
  | tail hsteps hadj ih =>
    rename_i b c
    have hc : c ∈ stepF edges (component edges n root) := by
      rw [stepF, Finset.mem_union]
      right
      rw [Finset.mem_biUnion]
      exact ⟨b, ih, mem_neighborsOf.mpr hadj⟩
    rw [component] at hc ⊢
    rw [stepF_iterate_fixed hE hroot] at hc
    exact hc

/-- The component of `root` is exactly its reachable set. -/
lemma mem_component_iff_reach {edges : List (Nat × Nat)} {n : Nat}
    (hE : ∀ e ∈ edges, e.1 < n ∧ e.2 < n) {root v : Nat} (hroot : root < n) :
    v ∈ component edges n root ↔ Reach edges root v :=
  ⟨reach_of_mem_iterate n v, mem_component_of_reach hE hroot⟩

/-- Every surviving pair has both cameras below `n_cam`. -/
lemma pairs_to_draw_bound (C : ObsMatrix) (min_matches : Nat) :
    ∀ e ∈ pairs_to_draw C min_matches, e.1 < n_cam C ∧ e.2 < n_cam C := by
  intro e he
  rw [pairs_to_draw, List.mem_filter] at he
  obtain ⟨i, j⟩ := e
  have h2 := mem_tmp_pairs.mp he.1
  exact ⟨by omega, h2.2⟩

/-- One `add_edge` call preserves the head of a nonempty node list and
keeps it nonempty. -/
lemma addEdgeNodes_head (ns : List Nat) (e : Nat × Nat) (h : ns ≠ []) :
    (addEdgeNodes ns e).head? = ns.head? ∧ addEdgeNodes ns e ≠ [] := by
  obtain ⟨a, t, rfl⟩ : ∃ a t, ns = a :: t := by
    cases ns with
    | nil => exact absurd rfl h
    | cons a t => exact ⟨a, t, rfl⟩
  rw [addEdgeNodes]
  split_ifs <;> simp [List.cons_append]

/-- Folding `add_edge` bookkeeping over more edges preserves the head
of a nonempty node list. -/
lemma foldl_addEdgeNodes_head :
    ∀ (es : List (Nat × Nat)) (ns : List Nat), ns ≠ [] →
      (es.foldl addEdgeNodes ns).head? = ns.head? ∧ es.foldl addEdgeNodes ns ≠ []
  | [], ns, h => ⟨rfl, h⟩
  | e :: es, ns, h => by
    rw [List.foldl_cons]
    have h1 := addEdgeNodes_head ns e h
    have h2 := foldl_addEdgeNodes_head es (addEdgeNodes ns e) h1.2
    exact ⟨h2.1.trans h1.1, h2.2⟩

/-- With at least one edge, the first node inserted into the graph is
the first camera of the first surviving pair. -/
lemma nodesFromEdges_cons (e : Nat × Nat) (es : List (Nat × Nat)) :
    ∃ t, nodesFromEdges (e :: es) = e.1 :: t := by
  rw [nodesFromEdges, List.foldl_cons]
  have hfirst : (addEdgeNodes [] e).head? = some e.1 ∧ addEdgeNodes [] e ≠ [] := by
    rw [addEdgeNodes]
    rw [if_neg (List.not_mem_nil e.1), List.nil_append]
    by_cases h2 : e.2 ∈ [e.1]
    · rw [if_pos h2]
      exact ⟨rfl, by simp⟩
    · rw [if_neg h2]
      exact ⟨rfl, by simp⟩
  have h := foldl_addEdgeNodes_head es (addEdgeNodes [] e) hfirst.2
  have hh : (es.foldl addEdgeNodes (addEdgeNodes [] e)).head? = some e.1 :=
    h.1.trans hfirst.1
  cases hres : es.foldl addEdgeNodes (addEdgeNodes [] e) with
  | nil => rw [hres] at hh; exact absurd hh (by simp)
  | cons a t =>
    rw [hres] at hh
    simp only [List.head?_cons, Option.some.injEq] at hh
    exact ⟨t, by rw [hh]⟩

/-- With at least one edge, the first connected component listed is the
component of the first camera of the first surviving pair. -/
lemma componentsList_cons (e : Nat × Nat) (es : List (Nat × Nat)) (fuel : Nat) :
    ∃ rest, componentsList (e :: es) fuel = component (e :: es) fuel e.1 :: rest := by
  obtain ⟨t, ht⟩ := nodesFromEdges_cons e es
  rw [componentsList, ht]
  simp only [componentsAux]
  rw [if_neg (Finset.not_mem_empty e.1)]
  exact ⟨_, rfl⟩

/-- Claim C5, counterexample: on `Cfive` at threshold 0, the filtered
graph decomposes into components `{0,1}` (found first) and `{2,3,4}`
(the largest); `build_connectivity_graph` reports `{2,3,4}` missing,
whereas all cameras minus the largest component is `{0,1}` — the claim
fails at this input. -/
theorem C5_counterexample :
    (build_connectivity_graph Cfive 0).map GraphResult.missing_cams = some [2, 3, 4] ∧
    Finset.range (n_cam Cfive) \
        largestComponentSpec (componentsList (pairs_to_draw Cfive 0) (n_cam Cfive)) =
      {0, 1} ∧
    (build_connectivity_graph Cfive 0).map (fun r => r.missing_cams.toFinset) ≠
      some (Finset.range (n_cam Cfive) \
        largestComponentSpec (componentsList (pairs_to_draw Cfive 0) (n_cam Cfive))) := by
  decide

/-- Claim C5 (amended): the missing-cameras set returned by
`build_connectivity_graph` equals the set of camera indices
`{0..n_cameras-1}` minus the node set of the *first* connected
component found — the component of the first camera of the first
surviving pair (`G_cc[0]`), i.e. the cameras not reachable from that
camera — not the largest component. -/
theorem C5_theorem (C : ObsMatrix) (min_matches : Nat) (e : Nat × Nat)
    (es : List (Nat × Nat)) (r : GraphResult)
    (hp : pairs_to_draw C min_matches = e :: es)
    (hb : build_connectivity_graph C min_matches = some r) (i : Nat) :
    i ∈ r.missing_cams ↔
      i < n_cam C ∧ ¬ Reach (pairs_to_draw C min_matches) e.1 i := by
  have hE : ∀ a ∈ pairs_to_draw C min_matches, a.1 < n_cam C ∧ a.2 < n_cam C :=
    pairs_to_draw_bound C min_matches
  have hE2 : ∀ a ∈ (e :: es), a.1 < n_cam C ∧ a.2 < n_cam C := by
    rw [← hp]
    exact hE
  have hroot : e.1 < n_cam C := by
    have hmem : e ∈ pairs_to_draw C min_matches := by
      rw [hp]
      exact List.mem_cons_self e es
    exact (hE e hmem).1
  obtain ⟨rest, hcl⟩ := componentsList_cons e es (n_cam C)
  have hb2 : build_connectivity_graph C min_matches =
      some { n_cc := (component (e :: es) (n_cam C) e.1 :: rest).length
             pairs_to_draw := e :: es
             matches_per_pair := matches_per_pair C min_matches
             missing_cams := (List.range (n_cam C)).filter
               (fun a => decide (a ∉ component (e :: es) (n_cam C) e.1)) } := by
    rw [build_connectivity_graph]
    rw [hp, hcl]
  have hr : r = { n_cc := (component (e :: es) (n_cam C) e.1 :: rest).length
                  pairs_to_draw := e :: es
                  matches_per_pair := matches_per_pair C min_matches
                  missing_cams := (List.range (n_cam C)).filter
                    (fun a => decide (a ∉ component (e :: es) (n_cam C) e.1)) } :=
    Option.some.inj (hb.symm.trans hb2)
  rw [hr, hp]
  simp only [List.mem_filter, List.mem_range, decide_eq_true_eq,
    mem_component_iff_reach hE2 hroot]

/-- Claim C5, witness: the amended statement evaluated on `Cfive` at
threshold 0 and camera 2 (missing, and indeed not reachable from
camera 0). -/
theorem C5_witness :
    2 ∈ (GraphResult.mk 2 [(0, 1), (2, 3), (3, 4)] [1, 1, 1] [2, 3, 4]).missing_cams ↔
      2 < n_cam Cfive ∧ ¬ Reach (pairs_to_draw Cfive 0) 0 2 :=
  C5_theorem Cfive 0 (0, 1) [(2, 3), (3, 4)]
    (GraphResult.mk 2 [(0, 1), (2, 3), (3, 4)] [1, 1, 1] [2, 3, 4])
    (by decide) (by decide) 2

end BaUtils
